import Mathlib

/-!
Shallow embedding of the environment transaction engine of
`src/cli/flox-rust-sdk/src/models/environment/core_environment.rs`.

The filesystem state relevant to the engine is the environment directory
(`manifest.toml` plus an optional `manifest.lock`) and the transaction backup
directory `env_dir.tmp`.  External collaborators (the TOML parser, the manifest
editor, the pkgdb subprocess, the catalog client, the builder) live outside the
source file under verification; they are passed in as function-valued fields of
an `Ext` record, and every fallible filesystem step of the engine is given a
success flag in the same record so that each failure point of the Rust code is
reachable in the model.
-/

namespace FloxCore

/-- A locked package record of a catalog lockfile.  Mirrors
`LockedPackageCatalog` (install_id, group, derivation, plus the descriptor it
was resolved from); the remaining fields of the Rust struct (attr_path, system,
pname, ...) play no role in the claims. -/
structure LockedPackageCatalog where
  install_id : String
  group : String
  derivation : String
  descriptor : String
deriving DecidableEq, Repr

/-- A version-1 (catalog) manifest: the `install` table of install-id to
descriptor, the optional `hook` section and the `vars` table.  Mirrors
`TypedManifestCatalog`. -/
structure TypedManifestCatalog where
  install : List (String × String)
  hook : Option String
  vars : List (String × String)
deriving DecidableEq, Repr

/-- Mirrors `TypedManifest`: the tagged manifest variant produced by
deserializing the manifest text.  The payload of the legacy (`Pkgdb`) variant
is passed verbatim to the backend and is not inspected by the engine. -/
inductive TypedManifest where
  | pkgdb : TypedManifest
  | catalog : TypedManifestCatalog → TypedManifest
deriving DecidableEq, Repr

/-- Mirrors the untyped `Manifest` used by `EditResult::new`: only its `hook`
and `vars` sections are compared. -/
structure Manifest where
  hook : Option String
  vars : List (String × String)
deriving DecidableEq, Repr

/-- Mirrors `LockedManifestCatalog`: the embedded manifest copy and the list of
fully resolved packages. -/
structure LockedManifestCatalog where
  manifest : TypedManifestCatalog
  packages : List LockedPackageCatalog
deriving DecidableEq, Repr

/-- Mirrors `LockedManifest`: the tagged lockfile variant.  The legacy
(`Pkgdb`) variant is an opaque JSON blob. -/
inductive LockedManifest where
  | pkgdb : String → LockedManifest
  | catalog : LockedManifestCatalog → LockedManifest
deriving DecidableEq, Repr

/-- Mirrors `CoreEnvironmentError` (the payload-carrying sources are dropped;
`PriorTransaction` keeps its path payload, `ContainerizeUnsupportedSystem`
keeps the host OS name). -/
inductive CoreEnvironmentError where
  | ModifyToml
  | DeserializeManifest
  | MakeSandbox
  | WriteLockfile
  | MakeTemporaryEnv
  | PriorTransaction (path : String)
  | BackupTransaction
  | AbortTransaction
  | Move
  | RemoveBackup
  | OpenManifest
  | UpdateManifest
  | LockedManifest
  | BadLockfilePath
  | ParseUpgradeOutput
  | UpgradeFailed
  | ContainerizeUnsupportedSystem (os : String)
  | CatalogClientMissing
deriving DecidableEq, Repr

/-- Contents of an environment directory: the manifest file and the optional
lockfile (`manifest.toml` / `manifest.lock`). -/
structure Dir where
  manifest : String
  lock : Option String
deriving DecidableEq, Repr

/-- The filesystem state seen by the engine: the environment directory path,
its contents (`none` when the directory is missing), and the contents of the
`env_dir.tmp` backup slot (`none` when the sentinel does not exist). -/
structure EnvState where
  envPath : String
  env : Option Dir
  backup : Option Dir
deriving DecidableEq, Repr

/-- The catalog client: resolves one install-id / descriptor request to a
locked package, or fails.  Stands for the `resolve` call of the client
contract. -/
def CatalogClient : Type := String → String → Option LockedPackageCatalog

/-- Equality of `Except` results is decidable when both components are. -/
instance {ε α : Type} [DecidableEq ε] [DecidableEq α] :
    DecidableEq (Except ε α) := fun x y =>
  match x, y with
  | .error a, .error b =>
    if h : a = b then .isTrue (by rw [h]) else .isFalse (fun hx => h (Except.error.inj hx))
  | .ok a, .ok b =>
    if h : a = b then .isTrue (by rw [h]) else .isFalse (fun hx => h (Except.ok.inj hx))
  | .error a, .ok b => .isFalse (fun hx => Except.noConfusion hx)
  | .ok a, .error b => .isFalse (fun hx => Except.noConfusion hx)

/-- Mirrors the part of `Flox` the engine consults: the optionally configured
catalog client. -/
structure Flox where
  catalog_client : Option CatalogClient

/-- Result of `insert_packages` from the manifest editor: the new manifest
text when at least one package was added, plus the map of packages that were
already installed. -/
structure InsertionResult where
  newToml : Option String
  alreadyInstalled : List (String × String)
deriving DecidableEq, Repr

/-- Mirrors `InstallationAttempt`. -/
structure InstallationAttempt where
  newManifest : Option String
  alreadyInstalled : List (String × String)
  storePath : Option String
deriving DecidableEq, Repr

/-- Mirrors `UninstallationAttempt`. -/
structure UninstallationAttempt where
  newManifest : Option String
  storePath : Option String
deriving DecidableEq, Repr

/-- Mirrors `UpdateResult` (lockfiles kept as serialized text). -/
structure UpdateResult where
  newLockfile : String
  oldLockfile : Option String
  storePath : Option String
deriving DecidableEq, Repr

/-- Mirrors `UpgradeResult`. -/
structure UpgradeResult where
  packages : List String
  storePath : Option String
deriving DecidableEq, Repr

/-- Mirrors `EditResult`. -/
inductive EditResult where
  | Unchanged
  | ReActivateRequired (store_path : Option String)
  | Success (store_path : Option String)
deriving DecidableEq, Repr

/-- The store path carried by an `EditResult`, as in the Rust accessor. -/
def EditResult.store_path : EditResult → Option String
  | .Unchanged => none
  | .ReActivateRequired sp => sp
  | .Success sp => sp

/-- The two failure points of `upgrade_with_pkgdb`: the `call_pkgdb`
invocation itself, or deserializing its JSON output. -/
inductive PkgdbUpgradeFailure where
  | call
  | parse
deriving DecidableEq, Repr

/-- External collaborators and filesystem failure injection.

The function-valued fields model code of this repository that is not under
`src/` (the manifest module's `toml::from_str` instances, `insert_packages`,
`remove_packages`, the lockfile module's `read_from_file`, `build`,
`build_container` and serde serializers) together with the pkgdb subprocess
and the catalog backend; the engine treats all of them as deterministic
black boxes keyed on the file contents they are given.  The `io*` flags give
every fallible filesystem call of the engine its own failure switch, and
`partialCopy` is the partial directory content left behind when the
copy-into-place step of the commit fails. -/
structure Ext where
  parseTyped : String → Option TypedManifest
  parseFlat : String → Option Manifest
  insertPkgs : String → List String → Option InsertionResult
  removePkgs : String → List String → Option String
  pkgdbLock : String → String → Option String
  globalLockfile : Option String
  pkgdbUpdate : Option String → Option String → List String → Option (String × Option String)
  pkgdbUpgrade : String → Option String → List String → Except PkgdbUpgradeFailure (String × List String)
  parseLock : String → Option LockedManifest
  buildLock : LockedManifest → Option String
  containerize : LockedManifest → Option String
  serializePretty : LockedManifest → String
  serializeCompact : LockedManifest → String
  os : String
  ioMkSandbox : Bool
  ioCopyToSandbox : Bool
  ioOpenTempManifest : Bool
  ioWriteTempManifest : Bool
  ioWriteLockfile : Bool
  ioRenameBackup : Bool
  ioCopyIn : Bool
  ioRemoveEnvOnAbort : Bool
  ioRestoreBackup : Bool
  ioRemoveBackup : Bool
  partialCopy : Option Dir

/-- Mirrors `manifest_content`: read `manifest.toml` from the environment
directory (fails with `OpenManifest` when it cannot be read). -/
def manifestContent (st : EnvState) : Except CoreEnvironmentError String :=
  match st.env with
  | some d => .ok d.manifest
  | none => .error .OpenManifest

/-- Mirrors `lock_with_pkgdb`: lock the manifest against the existing lockfile
when there is one, and against the process-global lockfile otherwise; backend
failures surface as `LockedManifest`. -/
def lockWithPkgdb (ext : Ext) (d : Dir) : Except CoreEnvironmentError String :=
  match d.lock with
  | some l =>
    match ext.pkgdbLock d.manifest l with
    | some out => .ok out
    | none => .error .LockedManifest
  | none =>
    match ext.globalLockfile with
    | none => .error .LockedManifest
    | some g =>
      match ext.pkgdbLock d.manifest g with
      | some out => .ok out
      | none => .error .LockedManifest

/-- The existing-lockfile block shared by `lock_with_catalog_client` and
`upgrade_with_catalog_client`: a missing lockfile yields no seed, an
unreadable lockfile propagates the read error, and a lockfile whose variant
does not match the version-1 manifest is ignored (logged at warn). -/
def readCatalogSeed (ext : Ext) (d : Dir) :
    Except CoreEnvironmentError (Option LockedManifestCatalog) :=
  match d.lock with
  | none => .ok none
  | some l =>
    match ext.parseLock l with
    | none => .error .LockedManifest
    | some (.catalog lf) => .ok (some lf)
    | some (.pkgdb _) => .ok none

/-- Modelled from the spec: resolution of one manifest entry by
`LockedManifestCatalog::lock_manifest` (the lockfile module is not under
`src/`).  A package already pinned in the seed lock is re-used when its
descriptor is unchanged; otherwise the descriptor is sent to the catalog
client. -/
def resolveDescriptor (client : CatalogClient) (seed : Option LockedManifestCatalog)
    (iid desc : String) : Option LockedPackageCatalog :=
  match seed.bind (fun s => s.packages.find? (fun p => p.install_id == iid)) with
  | some p => if p.descriptor == desc then some p else client iid desc
  | none => client iid desc

/-- Modelled from the spec: `LockedManifestCatalog::lock_manifest` (the
lockfile module is not under `src/`).  Given a manifest and an optional seed
lock, produce a complete lock: every entry of the manifest's `install` table
is resolved by `resolveDescriptor`, and any resolution failure fails the
whole lock. -/
def lockManifestCatalog (client : CatalogClient) (m : TypedManifestCatalog)
    (seed : Option LockedManifestCatalog) : Option LockedManifestCatalog :=
  (m.install.mapM (fun pr => resolveDescriptor client seed pr.1 pr.2)).map
    (fun pkgs => { manifest := m, packages := pkgs })

/-- Mirrors `lock_with_catalog_client`: read the existing lockfile as a seed
(ignoring it when its variant does not match) and lock the manifest with the
catalog client. -/
def lockWithCatalogClient (ext : Ext) (client : CatalogClient)
    (m : TypedManifestCatalog) (d : Dir) :
    Except CoreEnvironmentError LockedManifestCatalog :=
  match readCatalogSeed ext d with
  | .error e => .error e
  | .ok seed =>
    match lockManifestCatalog client m seed with
    | none => .error .LockedManifest
    | some lf => .ok lf

/-- Mirrors `lock` acting on a directory: deserialize the manifest, dispatch
on its variant (a version-1 manifest without a configured catalog client
fails with `CatalogClientMissing`), and on success write the pretty-printed
lockfile into the directory. -/
def lockOnDir (ext : Ext) (flox : Flox) (d : Dir) :
    Dir × Except CoreEnvironmentError LockedManifest :=
  match ext.parseTyped d.manifest with
  | none => (d, .error .DeserializeManifest)
  | some .pkgdb =>
    match lockWithPkgdb ext d with
    | .error e => (d, .error e)
    | .ok out =>
      let lf := LockedManifest.pkgdb out
      if ext.ioWriteLockfile then
        ({ d with lock := some (ext.serializePretty lf) }, .ok lf)
      else (d, .error .WriteLockfile)
  | some (.catalog m) =>
    match flox.catalog_client with
    | none => (d, .error .CatalogClientMissing)
    | some client =>
      match lockWithCatalogClient ext client m d with
      | .error e => (d, .error e)
      | .ok lc =>
        let lf := LockedManifest.catalog lc
        if ext.ioWriteLockfile then
          ({ d with lock := some (ext.serializePretty lf) }, .ok lf)
        else (d, .error .WriteLockfile)

/-- Mirrors `build` acting on a directory: a missing lockfile fails with
`BadLockfilePath`, an unreadable one with `LockedManifest`, and the builder
returns the store path. -/
def buildDir (ext : Ext) (d : Dir) : Except CoreEnvironmentError String :=
  match d.lock with
  | none => .error .BadLockfilePath
  | some l =>
    match ext.parseLock l with
    | none => .error .LockedManifest
    | some lf =>
      match ext.buildLock lf with
      | none => .error .LockedManifest
      | some sp => .ok sp

/-- Mirrors `replace_with`: the commit step of a transaction.  Fail fast with
`PriorTransaction` when the backup slot exists; rename the environment into
the backup slot; copy the replacement into place (restoring the backup when
the copy fails); remove the backup. -/
def replaceWith (ext : Ext) (st : EnvState) (replacement : Dir) :
    EnvState × Except CoreEnvironmentError Unit :=
  if st.backup.isSome then
    (st, .error (.PriorTransaction (st.envPath ++ ".tmp")))
  else if st.env.isNone || !ext.ioRenameBackup then
    (st, .error .BackupTransaction)
  else if ext.ioCopyIn then
    if ext.ioRemoveBackup then
      ({ st with env := some replacement, backup := none }, .ok ())
    else
      ({ st with env := some replacement, backup := st.env }, .error .RemoveBackup)
  else if !ext.ioRemoveEnvOnAbort then
    ({ st with env := ext.partialCopy, backup := st.env }, .error .AbortTransaction)
  else if !ext.ioRestoreBackup then
    ({ st with env := none, backup := st.env }, .error .AbortTransaction)
  else
    (st, .error .Move)

/-- Mirrors `transact_with_manifest_contents`: make a sandbox copy of the
environment, overwrite its manifest, lock it, build it, and commit via
`replaceWith`. -/
def transactWithManifestContents (ext : Ext) (flox : Flox) (st : EnvState)
    (contents : String) : EnvState × Except CoreEnvironmentError String :=
  if !ext.ioMkSandbox then (st, .error .MakeSandbox)
  else
    match st.env with
    | none => (st, .error .MakeTemporaryEnv)
    | some d =>
      if !ext.ioCopyToSandbox then (st, .error .MakeTemporaryEnv)
      else if !ext.ioOpenTempManifest then (st, .error .OpenManifest)
      else if !ext.ioWriteTempManifest then (st, .error .UpdateManifest)
      else
        match lockOnDir ext flox { d with manifest := contents } with
        | (_, .error e) => (st, .error e)
        | (d2, .ok _) =>
          match buildDir ext d2 with
          | .error e => (st, .error e)
          | .ok sp =>
            match replaceWith ext st d2 with
            | (st2, .error e) => (st2, .error e)
            | (st2, .ok _) => (st2, .ok sp)

/-- Mirrors `transact_with_lockfile_contents`: make a sandbox copy, overwrite
its lockfile, build it, and commit via `replaceWith` (no re-lock). -/
def transactWithLockfileContents (ext : Ext) (_flox : Flox) (st : EnvState)
    (contents : String) : EnvState × Except CoreEnvironmentError String :=
  if !ext.ioMkSandbox then (st, .error .MakeSandbox)
  else
    match st.env with
    | none => (st, .error .MakeTemporaryEnv)
    | some d =>
      if !ext.ioCopyToSandbox then (st, .error .MakeTemporaryEnv)
      else if !ext.ioWriteLockfile then (st, .error .WriteLockfile)
      else
        match buildDir ext { d with lock := some contents } with
        | .error e => (st, .error e)
        | .ok sp =>
          match replaceWith ext st { d with lock := some contents } with
          | (st2, .error e) => (st2, .error e)
          | (st2, .ok _) => (st2, .ok sp)

/-- Mirrors the public `lock`: lock the environment directory in place,
writing the lockfile to disk as a side effect. -/
def lock (ext : Ext) (flox : Flox) (st : EnvState) :
    EnvState × Except CoreEnvironmentError LockedManifest :=
  match st.env with
  | none => (st, .error .OpenManifest)
  | some d =>
    match lockOnDir ext flox d with
    | (d2, r) => ({ st with env := some d2 }, r)

/-- Mirrors `install`: run the manifest editor's insertion and, when it
produced new manifest text, a manifest-path transaction. -/
def install (ext : Ext) (flox : Flox) (st : EnvState) (pkgs : List String) :
    EnvState × Except CoreEnvironmentError InstallationAttempt :=
  match manifestContent st with
  | .error e => (st, .error e)
  | .ok cur =>
    match ext.insertPkgs cur pkgs with
    | none => (st, .error .ModifyToml)
    | some ins =>
      match ins.newToml with
      | none =>
        (st, .ok { newManifest := none, alreadyInstalled := ins.alreadyInstalled,
                   storePath := none })
      | some t =>
        match transactWithManifestContents ext flox st t with
        | (st2, .error e) => (st2, .error e)
        | (st2, .ok sp) =>
          (st2, .ok { newManifest := some t, alreadyInstalled := ins.alreadyInstalled,
                      storePath := some sp })

/-- Mirrors `uninstall`: run the manifest editor's removal and always run a
manifest-path transaction on the resulting text. -/
def uninstall (ext : Ext) (flox : Flox) (st : EnvState) (ids : List String) :
    EnvState × Except CoreEnvironmentError UninstallationAttempt :=
  match manifestContent st with
  | .error e => (st, .error e)
  | .ok cur =>
    match ext.removePkgs cur ids with
    | none => (st, .error .ModifyToml)
    | some t =>
      match transactWithManifestContents ext flox st t with
      | (st2, .error e) => (st2, .error e)
      | (st2, .ok sp) =>
        (st2, .ok { newManifest := some t, storePath := some sp })

/-- Mirrors `EditResult::new`: classify an edit by comparing the parsed old
and new manifests' `hook` and `vars` sections; the old manifest is parsed
first. -/
def EditResult.new (ext : Ext) (oldManifest newManifest : String)
    (store_path : Option String) : Except CoreEnvironmentError EditResult :=
  if oldManifest = newManifest then .ok .Unchanged
  else
    match ext.parseFlat oldManifest with
    | none => .error .DeserializeManifest
    | some o =>
      match ext.parseFlat newManifest with
      | none => .error .DeserializeManifest
      | some n =>
        if o.hook ≠ n.hook ∨ o.vars ≠ n.vars then .ok (.ReActivateRequired store_path)
        else .ok (.Success store_path)

/-- Mirrors `edit`: skip the transaction when the contents are unchanged,
otherwise run a manifest-path transaction and classify the result with
`EditResult.new`. -/
def edit (ext : Ext) (flox : Flox) (st : EnvState) (contents : String) :
    EnvState × Except CoreEnvironmentError EditResult :=
  match manifestContent st with
  | .error e => (st, .error e)
  | .ok old =>
    if contents = old then (st, .ok .Unchanged)
    else
      match transactWithManifestContents ext flox st contents with
      | (st2, .error e) => (st2, .error e)
      | (st2, .ok sp) => (st2, EditResult.new ext old contents (some sp))

/-- Mirrors `update`: obtain a new lockfile from the legacy backend's
`manifest update` and commit it via a lockfile-path transaction. -/
def update (ext : Ext) (flox : Flox) (st : EnvState) (inputs : List String) :
    EnvState × Except CoreEnvironmentError UpdateResult :=
  match ext.pkgdbUpdate (st.env.map (fun d => d.manifest))
      (st.env.bind (fun d => d.lock)) inputs with
  | none => (st, .error .LockedManifest)
  | some (newLock, oldLock) =>
    match transactWithLockfileContents ext flox st newLock with
    | (st2, .error e) => (st2, .error e)
    | (st2, .ok sp) =>
      (st2, .ok { newLockfile := newLock, oldLockfile := oldLock, storePath := some sp })

/-- Modelled from the spec: `unlock_packages_by_group_or_iid` of the lockfile
module (not under `src/`): remove the locked entries of every package whose
install-id or group matches one of the given keys. -/
def unlockPackagesByGroupOrIid (lf : LockedManifestCatalog) (keys : List String) :
    LockedManifestCatalog :=
  { lf with
    packages := lf.packages.filter
      (fun p => !(keys.contains p.install_id || keys.contains p.group)) }

/-- Mirrors `upgrade_with_pkgdb`: invoke the legacy backend's
`manifest upgrade` with the manifest and the existing lockfile (when
present). -/
def upgradeWithPkgdb (ext : Ext) (d : Dir) (keys : List String) :
    Except CoreEnvironmentError (String × List String) :=
  match ext.pkgdbUpgrade d.manifest d.lock keys with
  | .error .call => .error .UpgradeFailed
  | .error .parse => .error .ParseUpgradeOutput
  | .ok r => .ok r

/-- Mirrors `upgrade_with_catalog_client`: read the existing lockfile, strip
the pins matching the given groups or install-ids from the seed (an empty
list drops the seed entirely, forcing full re-resolution), re-lock, and pair
every package whose new derivation differs from an entry of the previous
lock with that entry. -/
def upgradeWithCatalogClient (ext : Ext) (client : CatalogClient)
    (keys : List String) (m : TypedManifestCatalog) (d : Dir) :
    Except CoreEnvironmentError
      (LockedManifestCatalog × List (LockedPackageCatalog × LockedPackageCatalog)) :=
  match readCatalogSeed ext d with
  | .error e => .error e
  | .ok existing =>
    let previousPackages := (existing.map (fun lf => lf.packages)).getD []
    let seed := if keys.isEmpty then none
      else existing.map (fun lf => unlockPackagesByGroupOrIid lf keys)
    match lockManifestCatalog client m seed with
    | none => .error .LockedManifest
    | some upgraded =>
      let diff := upgraded.packages.filterMap (fun pkg =>
        (previousPackages.find? (fun prev =>
          prev.install_id == pkg.install_id && prev.derivation != pkg.derivation)).map
          (fun prev => (prev, pkg)))
      .ok (upgraded, diff)

/-- The tail of `upgrade`: serialize the new lockfile, commit it via a
lockfile-path transaction, and report the upgraded install-ids. -/
def upgradeFinish (ext : Ext) (flox : Flox) (st : EnvState)
    (lf : LockedManifest) (upgraded : List String) :
    EnvState × Except CoreEnvironmentError UpgradeResult :=
  match transactWithLockfileContents ext flox st (ext.serializeCompact lf) with
  | (st2, .error e) => (st2, .error e)
  | (st2, .ok sp) => (st2, .ok { packages := upgraded, storePath := some sp })

/-- Mirrors `upgrade`: deserialize the manifest, dispatch on its variant
(a version-1 manifest without a catalog client fails with
`CatalogClientMissing`), resolve the upgraded lockfile, and commit it. -/
def upgrade (ext : Ext) (flox : Flox) (st : EnvState) (keys : List String) :
    EnvState × Except CoreEnvironmentError UpgradeResult :=
  match st.env with
  | none => (st, .error .OpenManifest)
  | some d =>
    match ext.parseTyped d.manifest with
    | none => (st, .error .DeserializeManifest)
    | some .pkgdb =>
      match upgradeWithPkgdb ext d keys with
      | .error e => (st, .error e)
      | .ok (lfStr, upgraded) =>
        upgradeFinish ext flox st (.pkgdb lfStr) upgraded
    | some (.catalog m) =>
      match flox.catalog_client with
      | none => (st, .error .CatalogClientMissing)
      | some client =>
        match upgradeWithCatalogClient ext client keys m d with
        | .error e => (st, .error e)
        | .ok (lc, diff) =>
          upgradeFinish ext flox st (.catalog lc)
            (diff.map (fun pr => pr.2.install_id))

/-- Mirrors `build_container`: a non-Linux host fails with
`ContainerizeUnsupportedSystem` carrying the OS name; otherwise the
environment is re-locked and the container builder is produced from the
lockfile. -/
def buildContainer (ext : Ext) (flox : Flox) (st : EnvState) :
    EnvState × Except CoreEnvironmentError String :=
  if ext.os ≠ "linux" then (st, .error (.ContainerizeUnsupportedSystem ext.os))
  else
    match lock ext flox st with
    | (st2, .error e) => (st2, .error e)
    | (st2, .ok lf) =>
      match ext.containerize lf with
      | none => (st2, .error .LockedManifest)
      | some b => (st2, .ok b)

/-- The five mutating operations of the environment view. -/
inductive MutOp where
  | install (pkgs : List String)
  | uninstall (ids : List String)
  | edit (contents : String)
  | update (inputs : List String)
  | upgrade (keys : List String)
deriving DecidableEq, Repr

/-- The error of an operation's outcome, discarding the success payload. -/
def errOf {α : Type} : Except CoreEnvironmentError α → Option CoreEnvironmentError
  | .error e => some e
  | .ok _ => none

/-- Run one mutating operation, keeping the final filesystem state and the
error (if any). -/
def runMut (op : MutOp) (ext : Ext) (flox : Flox) (st : EnvState) :
    EnvState × Option CoreEnvironmentError :=
  match op with
  | .install pkgs =>
    ((install ext flox st pkgs).1, errOf (install ext flox st pkgs).2)
  | .uninstall ids =>
    ((uninstall ext flox st ids).1, errOf (uninstall ext flox st ids).2)
  | .edit contents =>
    ((edit ext flox st contents).1, errOf (edit ext flox st contents).2)
  | .update inputs =>
    ((update ext flox st inputs).1, errOf (update ext flox st inputs).2)
  | .upgrade keys =>
    ((upgrade ext flox st keys).1, errOf (upgrade ext flox st keys).2)

/-- The operation takes a fast path that mutates nothing: an `edit` whose
contents equal the current manifest, or an `install` whose insertion adds no
package. -/
def skipsTransaction (op : MutOp) (ext : Ext) (st : EnvState) : Prop :=
  match op with
  | .install pkgs => ∃ d ins, st.env = some d ∧
      ext.insertPkgs d.manifest pkgs = some ins ∧ ins.newToml = none
  | .edit contents => ∃ d, st.env = some d ∧ contents = d.manifest
  | _ => False

/-! ## Helper lemmas about the commit step and the transactions -/

/-- A commit that fails other than while removing the backup or aborting a
failed restore leaves the filesystem state unchanged. -/
theorem replaceWith_error_state {ext : Ext} {st st2 : EnvState} {rep : Dir}
    {e : CoreEnvironmentError}
    (h : replaceWith ext st rep = (st2, .error e))
    (h1 : e ≠ .RemoveBackup) (h2 : e ≠ .AbortTransaction) : st2 = st := by
  unfold replaceWith at h
  split_ifs at h <;> simp_all [Prod.mk.injEq]

/-- When the backup sentinel exists, the commit step fails immediately with
`PriorTransaction` on the sentinel path and changes nothing. -/
theorem replaceWith_backup_some {ext : Ext} {st : EnvState} {rep : Dir} {b : Dir}
    (hb : st.backup = some b) :
    replaceWith ext st rep = (st, .error (.PriorTransaction (st.envPath ++ ".tmp"))) := by
  simp [replaceWith, hb]

/-- A failed manifest-path transaction leaves the filesystem state unchanged,
unless the failure is `RemoveBackup` or `AbortTransaction`. -/
theorem transactM_error_state {ext : Ext} {flox : Flox} {st st2 : EnvState}
    {c : String} {e : CoreEnvironmentError}
    (h : transactWithManifestContents ext flox st c = (st2, .error e))
    (h1 : e ≠ .RemoveBackup) (h2 : e ≠ .AbortTransaction) : st2 = st := by
  unfold transactWithManifestContents at h
  split at h
  · simp_all [Prod.mk.injEq]
  · split at h
    · simp_all [Prod.mk.injEq]
    · split_ifs at h <;> try simp_all [Prod.mk.injEq]
      split at h
      · simp_all [Prod.mk.injEq]
      · split at h
        · simp_all [Prod.mk.injEq]
        · split at h
          case _ st2x ex heq =>
            injection h with hst he
            injection he with he2
            subst hst he2
            exact replaceWith_error_state heq h1 h2
          case _ => simp_all [Prod.mk.injEq]

/-- A failed lockfile-path transaction leaves the filesystem state unchanged,
unless the failure is `RemoveBackup` or `AbortTransaction`. -/
theorem transactL_error_state {ext : Ext} {flox : Flox} {st st2 : EnvState}
    {c : String} {e : CoreEnvironmentError}
    (h : transactWithLockfileContents ext flox st c = (st2, .error e))
    (h1 : e ≠ .RemoveBackup) (h2 : e ≠ .AbortTransaction) : st2 = st := by
  unfold transactWithLockfileContents at h
  split at h
  · simp_all [Prod.mk.injEq]
  · split at h
    · simp_all [Prod.mk.injEq]
    · split_ifs at h <;> try simp_all [Prod.mk.injEq]
      split at h
      · simp_all [Prod.mk.injEq]
      · split at h
        case _ st2x ex heq =>
          injection h with hst he
          injection he with he2
          subst hst he2
          exact replaceWith_error_state heq h1 h2
        case _ => simp_all [Prod.mk.injEq]

/-! ## Error enumeration lemmas -/

/-- Errors of `lockWithPkgdb` are always `LockedManifest`. -/
theorem lockWithPkgdb_error {ext : Ext} {d : Dir} {e : CoreEnvironmentError}
    (h : lockWithPkgdb ext d = .error e) : e = .LockedManifest := by
  unfold lockWithPkgdb at h
  split at h <;> (try split at h) <;> (try split at h) <;> simp_all

/-- Errors of `readCatalogSeed` are always `LockedManifest`. -/
theorem readCatalogSeed_error {ext : Ext} {d : Dir} {e : CoreEnvironmentError}
    (h : readCatalogSeed ext d = .error e) : e = .LockedManifest := by
  unfold readCatalogSeed at h
  split at h <;> (try split at h) <;> simp_all

/-- Errors of `lockWithCatalogClient` are always `LockedManifest`. -/
theorem lockWithCatalogClient_error {ext : Ext} {client : CatalogClient}
    {m : TypedManifestCatalog} {d : Dir} {e : CoreEnvironmentError}
    (h : lockWithCatalogClient ext client m d = .error e) : e = .LockedManifest := by
  unfold lockWithCatalogClient at h
  split at h
  case _ ex heq => cases h; exact readCatalogSeed_error heq
  case _ => split at h <;> simp_all

/-- Errors of `buildDir` are `BadLockfilePath` or `LockedManifest`. -/
theorem buildDir_error {ext : Ext} {d : Dir} {e : CoreEnvironmentError}
    (h : buildDir ext d = .error e) :
    e = .BadLockfilePath ∨ e = .LockedManifest := by
  unfold buildDir at h
  split at h <;> (try split at h) <;> (try split at h) <;> simp_all

/-- A failing `lockOnDir` leaves the directory unchanged. -/
theorem lockOnDir_error_dir {ext : Ext} {flox : Flox} {d d2 : Dir}
    {e : CoreEnvironmentError}
    (h : lockOnDir ext flox d = (d2, .error e)) : d2 = d := by
  unfold lockOnDir at h
  split at h <;>
    (try split at h) <;> (try split at h) <;> (try split_ifs at h) <;>
    simp_all [Prod.mk.injEq]

/-- For a version-1 manifest without a configured catalog client,
`lockOnDir` fails with `CatalogClientMissing` and changes nothing. -/
theorem lockOnDir_ccm {ext : Ext} {flox : Flox} {d : Dir} {m : TypedManifestCatalog}
    (hm : ext.parseTyped d.manifest = some (.catalog m))
    (hc : flox.catalog_client = none) :
    lockOnDir ext flox d = (d, .error .CatalogClientMissing) := by
  simp [lockOnDir, hm, hc]

/-- With a configured catalog client, `lockOnDir` never fails with
`CatalogClientMissing`. -/
theorem lockOnDir_no_ccm {ext : Ext} {flox : Flox} {d d2 : Dir} {client : CatalogClient}
    {e : CoreEnvironmentError}
    (hc : flox.catalog_client = some client)
    (h : lockOnDir ext flox d = (d2, .error e)) : e ≠ .CatalogClientMissing := by
  unfold lockOnDir at h
  rw [hc] at h
  split at h
  · obtain ⟨-, hE⟩ := Prod.mk.injEq .. |>.mp h
    injection hE with hE2
    subst hE2
    simp
  · split at h
    case _ ex heq =>
      obtain ⟨-, hE⟩ := Prod.mk.injEq .. |>.mp h
      injection hE with hE2
      subst hE2
      simp [lockWithPkgdb_error heq]
    case _ =>
      split_ifs at h
      · exact absurd h (by simp)
      · obtain ⟨-, hE⟩ := Prod.mk.injEq .. |>.mp h
        injection hE with hE2
        subst hE2
        simp
  · split at h
    case _ heq => exact absurd heq (by simp)
    case _ clientx heq =>
      split at h
      case _ ex heq2 =>
        obtain ⟨-, hE⟩ := Prod.mk.injEq .. |>.mp h
        injection hE with hE2
        subst hE2
        simp [lockWithCatalogClient_error heq2]
      case _ =>
        split_ifs at h
        · exact absurd h (by simp)
        · obtain ⟨-, hE⟩ := Prod.mk.injEq .. |>.mp h
          injection hE with hE2
          subst hE2
          simp

/-- Errors of `lockOnDir` are `DeserializeManifest`, `LockedManifest`,
`WriteLockfile` or `CatalogClientMissing` — never a commit-stage error. -/
theorem lockOnDir_error_enum {ext : Ext} {flox : Flox} {d d2 : Dir}
    {e : CoreEnvironmentError}
    (h : lockOnDir ext flox d = (d2, .error e)) :
    e = .DeserializeManifest ∨ e = .LockedManifest ∨ e = .WriteLockfile ∨
      e = .CatalogClientMissing := by
  unfold lockOnDir at h
  split at h
  · simp_all [Prod.mk.injEq]
  · split at h
    case _ ex heq =>
      obtain ⟨-, hE⟩ := Prod.mk.injEq .. |>.mp h
      injection hE with hE2
      subst hE2
      simp [lockWithPkgdb_error heq]
    case _ => split_ifs at h <;> simp_all [Prod.mk.injEq]
  · split at h
    · simp_all [Prod.mk.injEq]
    · split at h
      case _ ex heq =>
        obtain ⟨-, hE⟩ := Prod.mk.injEq .. |>.mp h
        injection hE with hE2
        subst hE2
        simp [lockWithCatalogClient_error heq]
      case _ => split_ifs at h <;> simp_all [Prod.mk.injEq]

/-- Errors of `upgradeWithPkgdb` are `UpgradeFailed` or `ParseUpgradeOutput`. -/
theorem upgradeWithPkgdb_error {ext : Ext} {d : Dir} {keys : List String}
    {e : CoreEnvironmentError}
    (h : upgradeWithPkgdb ext d keys = .error e) :
    e = .UpgradeFailed ∨ e = .ParseUpgradeOutput := by
  unfold upgradeWithPkgdb at h
  split at h <;> simp_all

/-- Errors of `upgradeWithCatalogClient` are always `LockedManifest`. -/
theorem upgradeWithCatalogClient_error {ext : Ext} {client : CatalogClient}
    {keys : List String} {m : TypedManifestCatalog} {d : Dir}
    {e : CoreEnvironmentError}
    (h : upgradeWithCatalogClient ext client keys m d = .error e) :
    e = .LockedManifest := by
  unfold upgradeWithCatalogClient at h
  split at h
  case _ ex heq => cases h; exact readCatalogSeed_error heq
  case _ seed heq =>
    split_ifs at h
    · cases hL : lockManifestCatalog client m none with
      | none =>
        simp only [hL] at h
        injection h with h2
        exact h2.symm
      | some up =>
        simp only [hL] at h
        exact absurd h (by simp)
    · cases hL : lockManifestCatalog client m
          (seed.map (fun lf => unlockPackagesByGroupOrIid lf keys)) with
      | none =>
        simp only [hL] at h
        injection h with h2
        exact h2.symm
      | some up =>
        simp only [hL] at h
        exact absurd h (by simp)

/-- Errors of `replaceWith` are `PriorTransaction`, `BackupTransaction`,
`RemoveBackup`, `AbortTransaction` or `Move`. -/
theorem replaceWith_error_enum {ext : Ext} {st st2 : EnvState} {rep : Dir}
    {e : CoreEnvironmentError}
    (h : replaceWith ext st rep = (st2, .error e)) :
    (∃ p, e = .PriorTransaction p) ∨ e = .BackupTransaction ∨
      e = .RemoveBackup ∨ e = .AbortTransaction ∨ e = .Move := by
  unfold replaceWith at h
  split_ifs at h
  · obtain ⟨-, hE⟩ := Prod.mk.injEq .. |>.mp h
    injection hE with hE2
    subst hE2
    exact Or.inl ⟨_, rfl⟩
  · obtain ⟨-, hE⟩ := Prod.mk.injEq .. |>.mp h
    injection hE with hE2
    subst hE2
    simp
  · obtain ⟨-, hE⟩ := Prod.mk.injEq .. |>.mp h
    exact absurd hE (by simp)
  · obtain ⟨-, hE⟩ := Prod.mk.injEq .. |>.mp h
    injection hE with hE2
    subst hE2
    simp
  · obtain ⟨-, hE⟩ := Prod.mk.injEq .. |>.mp h
    injection hE with hE2
    subst hE2
    simp
  · obtain ⟨-, hE⟩ := Prod.mk.injEq .. |>.mp h
    injection hE with hE2
    subst hE2
    simp
  · obtain ⟨-, hE⟩ := Prod.mk.injEq .. |>.mp h
    injection hE with hE2
    subst hE2
    simp

/-- Errors of a lockfile-path transaction: sandbox creation, sandbox copy,
lockfile write, build, or commit — never `CatalogClientMissing`,
`DeserializeManifest`, `OpenManifest` or `ModifyToml`. -/
theorem transactL_error_enum {ext : Ext} {flox : Flox} {st st2 : EnvState}
    {c : String} {e : CoreEnvironmentError}
    (h : transactWithLockfileContents ext flox st c = (st2, .error e)) :
    e = .MakeSandbox ∨ e = .MakeTemporaryEnv ∨ e = .WriteLockfile ∨
      e = .BadLockfilePath ∨ e = .LockedManifest ∨ (∃ p, e = .PriorTransaction p) ∨
      e = .BackupTransaction ∨ e = .RemoveBackup ∨ e = .AbortTransaction ∨
      e = .Move := by
  unfold transactWithLockfileContents at h
  split at h
  · simp_all [Prod.mk.injEq]
  · split at h
    · simp_all [Prod.mk.injEq]
    · split_ifs at h
      · simp_all [Prod.mk.injEq]
      · simp_all [Prod.mk.injEq]
      · split at h
        case _ ex heq =>
          obtain ⟨-, hE⟩ := Prod.mk.injEq .. |>.mp h
          injection hE with hE2
          subst hE2
          rcases buildDir_error heq with hB | hB <;> simp [hB]
        case _ =>
          split at h
          case _ st2x ex heq =>
            obtain ⟨-, hE⟩ := Prod.mk.injEq .. |>.mp h
            injection hE with hE2
            subst hE2
            rcases replaceWith_error_enum heq with ⟨p, hP⟩ | hP | hP | hP | hP <;>
              simp [hP]
          case _ => simp_all [Prod.mk.injEq]

/-- With the backup sentinel present, a manifest-path transaction leaves the
state unchanged, never succeeds, and never surfaces a commit-stage error
other than `PriorTransaction`. -/
theorem transactM_backup_state {ext : Ext} {flox : Flox} {st st2 : EnvState}
    {c : String} {r : Except CoreEnvironmentError String} {b : Dir}
    (hb : st.backup = some b)
    (h : transactWithManifestContents ext flox st c = (st2, r)) :
    st2 = st ∧ (∀ sp, r ≠ .ok sp) ∧
      (∀ e, r = .error e → e ≠ .BackupTransaction ∧ e ≠ .Move ∧
        e ≠ .RemoveBackup ∧ e ≠ .AbortTransaction) := by
  unfold transactWithManifestContents at h
  split at h
  · cases h
    exact ⟨rfl, by simp, fun e he => by injection he with h2; subst h2; simp⟩
  · split at h
    · cases h
      exact ⟨rfl, by simp, fun e he => by injection he with h2; subst h2; simp⟩
    · split_ifs at h
      · cases h
        exact ⟨rfl, by simp, fun e he => by injection he with h2; subst h2; simp⟩
      · cases h
        exact ⟨rfl, by simp, fun e he => by injection he with h2; subst h2; simp⟩
      · cases h
        exact ⟨rfl, by simp, fun e he => by injection he with h2; subst h2; simp⟩
      · split at h
        case _ ex heq =>
          cases h
          refine ⟨rfl, by simp, fun e he => ?_⟩
          injection he with h2
          subst h2
          rcases lockOnDir_error_enum heq with hE | hE | hE | hE <;> (subst hE; simp)
        case _ =>
          split at h
          case _ ex heq =>
            cases h
            refine ⟨rfl, by simp, fun e he => ?_⟩
            injection he with h2
            subst h2
            rcases buildDir_error heq with hE | hE <;> (subst hE; simp)
          case _ =>
            split at h
            case _ st2x ex heq =>
              rw [replaceWith_backup_some hb] at heq
              cases h
              injection heq with hA hB
              injection hB with hC
              subst hA hC
              exact ⟨rfl, by simp,
                fun e he => by injection he with h2; subst h2; simp⟩
            case _ st2x u heq =>
              rw [replaceWith_backup_some hb] at heq
              exact absurd heq (by simp)

/-- With the backup sentinel present, a lockfile-path transaction leaves the
state unchanged, never succeeds, and never surfaces a commit-stage error
other than `PriorTransaction`. -/
theorem transactL_backup_state {ext : Ext} {flox : Flox} {st st2 : EnvState}
    {c : String} {r : Except CoreEnvironmentError String} {b : Dir}
    (hb : st.backup = some b)
    (h : transactWithLockfileContents ext flox st c = (st2, r)) :
    st2 = st ∧ (∀ sp, r ≠ .ok sp) ∧
      (∀ e, r = .error e → e ≠ .BackupTransaction ∧ e ≠ .Move ∧
        e ≠ .RemoveBackup ∧ e ≠ .AbortTransaction) := by
  unfold transactWithLockfileContents at h
  split at h
  · cases h
    exact ⟨rfl, by simp, fun e he => by injection he with h2; subst h2; simp⟩
  · split at h
    · cases h
      exact ⟨rfl, by simp, fun e he => by injection he with h2; subst h2; simp⟩
    · split_ifs at h
      · cases h
        exact ⟨rfl, by simp, fun e he => by injection he with h2; subst h2; simp⟩
      · cases h
        exact ⟨rfl, by simp, fun e he => by injection he with h2; subst h2; simp⟩
      · split at h
        case _ ex heq =>
          cases h
          refine ⟨rfl, by simp, fun e he => ?_⟩
          injection he with h2
          subst h2
          rcases buildDir_error heq with hE | hE <;> (subst hE; simp)
        case _ =>
          split at h
          case _ st2x ex heq =>
            rw [replaceWith_backup_some hb] at heq
            cases h
            injection heq with hA hB
            injection hB with hC
            subst hA hC
            exact ⟨rfl, by simp,
              fun e he => by injection he with h2; subst h2; simp⟩
          case _ st2x u heq =>
            rw [replaceWith_backup_some hb] at heq
            exact absurd heq (by simp)

/-! ## Lemmas about `EditResult.new` -/

/-- The only error `EditResult.new` can produce is `DeserializeManifest`. -/
theorem editResultNew_error {ext : Ext} {o n : String} {sp : Option String}
    {e : CoreEnvironmentError}
    (h : EditResult.new ext o n sp = .error e) : e = .DeserializeManifest := by
  unfold EditResult.new at h
  split at h
  · simp_all
  · split at h
    · simp_all
    · split at h
      · simp_all
      · split_ifs at h

/-- With distinct parseable texts, `EditResult.new` classifies the edit by
comparing `hook` and `vars`. -/
theorem editResultNew_ok {ext : Ext} {o n : String} {sp : Option String}
    {mo mn : Manifest}
    (hne : o ≠ n) (ho : ext.parseFlat o = some mo) (hn : ext.parseFlat n = some mn) :
    EditResult.new ext o n sp =
      .ok (if mo.hook ≠ mn.hook ∨ mo.vars ≠ mn.vars then .ReActivateRequired sp
           else .Success sp) := by
  simp only [EditResult.new, if_neg hne, ho, hn]
  split <;> rfl

/-- A successful `EditResult.new` on distinct texts is never `Unchanged` and
carries the given store path. -/
theorem editResultNew_ok_shape {ext : Ext} {o n : String} {sp : Option String}
    {r : EditResult}
    (hne : o ≠ n) (h : EditResult.new ext o n sp = .ok r) :
    r ≠ .Unchanged ∧ r.store_path = sp := by
  unfold EditResult.new at h
  rw [if_neg hne] at h
  split at h
  · simp_all
  · split at h
    · simp_all
    · split_ifs at h <;>
        (injection h with h2; subst h2; exact ⟨by simp, rfl⟩)

/-! ## Small inversion lemmas -/

/-- The only error of `manifestContent` is `OpenManifest`. -/
theorem manifestContent_error {st : EnvState} {e : CoreEnvironmentError}
    (h : manifestContent st = .error e) : e = .OpenManifest := by
  unfold manifestContent at h
  split at h <;> simp_all

/-- A successful `manifestContent` comes from a present directory. -/
theorem manifestContent_ok {st : EnvState} {c : String}
    (h : manifestContent st = .ok c) : ∃ d, st.env = some d ∧ d.manifest = c := by
  unfold manifestContent at h
  split at h
  case _ d hd =>
    injection h with h2
    exact ⟨d, hd, h2⟩
  case _ => exact absurd h (by simp)

/-- Inverting `errOf` on an error. -/
theorem errOf_eq_some {α : Type} {r : Except CoreEnvironmentError α}
    {e : CoreEnvironmentError} (h : errOf r = some e) : r = .error e := by
  cases r <;> simp_all [errOf]

/-- Inverting `errOf` on success. -/
theorem errOf_eq_none {α : Type} {r : Except CoreEnvironmentError α}
    (h : errOf r = none) : ∃ a, r = .ok a := by
  cases r <;> simp_all [errOf]

/-! ## Per-operation rollback lemmas (claim C1) -/

/-- A failing `install` (other than during backup removal or a failed
restore) leaves the state unchanged. -/
theorem install_error_state {ext : Ext} {flox : Flox} {st st2 : EnvState}
    {pkgs : List String} {e : CoreEnvironmentError}
    (h : install ext flox st pkgs = (st2, .error e))
    (h1 : e ≠ .RemoveBackup) (h2 : e ≠ .AbortTransaction) : st2 = st := by
  unfold install at h
  split at h
  · cases h; rfl
  · split at h
    · cases h; rfl
    · split at h
      · exact absurd h (by simp)
      · split at h
        case _ st2x ex heq =>
          cases h
          exact transactM_error_state heq h1 h2
        case _ => exact absurd h (by simp)

/-- A failing `uninstall` (other than during backup removal or a failed
restore) leaves the state unchanged. -/
theorem uninstall_error_state {ext : Ext} {flox : Flox} {st st2 : EnvState}
    {ids : List String} {e : CoreEnvironmentError}
    (h : uninstall ext flox st ids = (st2, .error e))
    (h1 : e ≠ .RemoveBackup) (h2 : e ≠ .AbortTransaction) : st2 = st := by
  unfold uninstall at h
  split at h
  · cases h; rfl
  · split at h
    · cases h; rfl
    · split at h
      case _ st2x ex heq =>
        cases h
        exact transactM_error_state heq h1 h2
      case _ => exact absurd h (by simp)

/-- A failing `edit` leaves the state unchanged, except for the
`DeserializeManifest` error (which can be raised while classifying the
result after a successful commit) and the backup-removal / failed-restore
errors. -/
theorem edit_error_state {ext : Ext} {flox : Flox} {st st2 : EnvState}
    {contents : String} {e : CoreEnvironmentError}
    (h : edit ext flox st contents = (st2, .error e))
    (h1 : e ≠ .RemoveBackup) (h2 : e ≠ .AbortTransaction)
    (h3 : e ≠ .DeserializeManifest) : st2 = st := by
  unfold edit at h
  split at h
  · cases h; rfl
  · split_ifs at h
    · exact absurd h (by simp)
    · split at h
      case _ st2x ex heq =>
        cases h
        exact transactM_error_state heq h1 h2
      case _ st2x sp heq =>
        obtain ⟨hA, hB⟩ := Prod.mk.injEq .. |>.mp h
        exact absurd (editResultNew_error hB) h3

/-- A failing `update` (other than during backup removal or a failed
restore) leaves the state unchanged. -/
theorem update_error_state {ext : Ext} {flox : Flox} {st st2 : EnvState}
    {inputs : List String} {e : CoreEnvironmentError}
    (h : update ext flox st inputs = (st2, .error e))
    (h1 : e ≠ .RemoveBackup) (h2 : e ≠ .AbortTransaction) : st2 = st := by
  unfold update at h
  split at h
  · cases h; rfl
  · split at h
    case _ st2x ex heq =>
      cases h
      exact transactL_error_state heq h1 h2
    case _ => exact absurd h (by simp)

/-- A failing `upgradeFinish` (other than during backup removal or a failed
restore) leaves the state unchanged. -/
theorem upgradeFinish_error_state {ext : Ext} {flox : Flox} {st st2 : EnvState}
    {lf : LockedManifest} {ups : List String} {e : CoreEnvironmentError}
    (h : upgradeFinish ext flox st lf ups = (st2, .error e))
    (h1 : e ≠ .RemoveBackup) (h2 : e ≠ .AbortTransaction) : st2 = st := by
  unfold upgradeFinish at h
  split at h
  case _ st2x ex heq =>
    cases h
    exact transactL_error_state heq h1 h2
  case _ => exact absurd h (by simp)

/-- A failing `upgrade` (other than during backup removal or a failed
restore) leaves the state unchanged. -/
theorem upgrade_error_state {ext : Ext} {flox : Flox} {st st2 : EnvState}
    {keys : List String} {e : CoreEnvironmentError}
    (h : upgrade ext flox st keys = (st2, .error e))
    (h1 : e ≠ .RemoveBackup) (h2 : e ≠ .AbortTransaction) : st2 = st := by
  unfold upgrade at h
  split at h
  · cases h; rfl
  · split at h
    · cases h; rfl
    · split at h
      · cases h; rfl
      · exact upgradeFinish_error_state h h1 h2
    · split at h
      · cases h; rfl
      · split at h
        · cases h; rfl
        · exact upgradeFinish_error_state h h1 h2

/-! ## Per-operation sentinel lemmas (claim C2) -/

/-- With the backup sentinel present, `install` leaves the state unchanged,
succeeds only on the no-insertion fast path, and surfaces no commit-stage
error other than `PriorTransaction`. -/
theorem install_backup_state {ext : Ext} {flox : Flox} {st st2 : EnvState}
    {pkgs : List String} {r : Except CoreEnvironmentError InstallationAttempt}
    {b : Dir} (hb : st.backup = some b)
    (h : install ext flox st pkgs = (st2, r)) :
    st2 = st ∧
      (∀ a, r = .ok a → ∃ d ins, st.env = some d ∧
        ext.insertPkgs d.manifest pkgs = some ins ∧ ins.newToml = none) ∧
      (∀ e, r = .error e → e ≠ .BackupTransaction ∧ e ≠ .Move ∧
        e ≠ .RemoveBackup ∧ e ≠ .AbortTransaction) := by
  unfold install at h
  split at h
  case _ ex heq =>
    cases h
    refine ⟨rfl, by simp, fun e he => ?_⟩
    injection he with h2
    subst h2
    have hx := manifestContent_error heq
    subst hx
    simp
  case _ cur heq =>
    split at h
    · cases h
      exact ⟨rfl, by simp, fun e he => by injection he with h2; subst h2; simp⟩
    case _ ins heqIns =>
      split at h
      case _ heqToml =>
        cases h
        refine ⟨rfl, fun a ha => ?_, by simp⟩
        obtain ⟨d, hd, hdm⟩ := manifestContent_ok heq
        exact ⟨d, ins, hd, by rw [hdm]; exact heqIns, heqToml⟩
      case _ t heqToml =>
        split at h
        case _ st2x ex heq2 =>
          cases h
          obtain ⟨hS, hN, hE⟩ := transactM_backup_state hb heq2
          exact ⟨hS, by simp, fun e he => by injection he with h2; subst h2; exact hE _ rfl⟩
        case _ st2x sp heq2 =>
          obtain ⟨hS, hN, hE⟩ := transactM_backup_state hb heq2
          exact absurd rfl (hN sp)

/-- With the backup sentinel present, `uninstall` leaves the state unchanged,
never succeeds, and surfaces no commit-stage error other than
`PriorTransaction`. -/
theorem uninstall_backup_state {ext : Ext} {flox : Flox} {st st2 : EnvState}
    {ids : List String} {r : Except CoreEnvironmentError UninstallationAttempt}
    {b : Dir} (hb : st.backup = some b)
    (h : uninstall ext flox st ids = (st2, r)) :
    st2 = st ∧ (∀ a, r ≠ .ok a) ∧
      (∀ e, r = .error e → e ≠ .BackupTransaction ∧ e ≠ .Move ∧
        e ≠ .RemoveBackup ∧ e ≠ .AbortTransaction) := by
  unfold uninstall at h
  split at h
  case _ ex heq =>
    cases h
    refine ⟨rfl, by simp, fun e he => ?_⟩
    injection he with h2
    subst h2
    have hx := manifestContent_error heq
    subst hx
    simp
  case _ cur heq =>
    split at h
    · cases h
      exact ⟨rfl, by simp, fun e he => by injection he with h2; subst h2; simp⟩
    · split at h
      case _ st2x ex heq2 =>
        cases h
        obtain ⟨hS, hN, hE⟩ := transactM_backup_state hb heq2
        exact ⟨hS, by simp, fun e he => by injection he with h2; subst h2; exact hE _ rfl⟩
      case _ st2x sp heq2 =>
        obtain ⟨hS, hN, hE⟩ := transactM_backup_state hb heq2
        exact absurd rfl (hN sp)

/-- With the backup sentinel present, `edit` leaves the state unchanged,
succeeds only on the unchanged-text fast path, and surfaces no commit-stage
error other than `PriorTransaction`. -/
theorem edit_backup_state {ext : Ext} {flox : Flox} {st st2 : EnvState}
    {contents : String} {r : Except CoreEnvironmentError EditResult}
    {b : Dir} (hb : st.backup = some b)
    (h : edit ext flox st contents = (st2, r)) :
    st2 = st ∧
      (∀ a, r = .ok a → ∃ d, st.env = some d ∧ contents = d.manifest) ∧
      (∀ e, r = .error e → e ≠ .BackupTransaction ∧ e ≠ .Move ∧
        e ≠ .RemoveBackup ∧ e ≠ .AbortTransaction) := by
  unfold edit at h
  split at h
  case _ ex heq =>
    cases h
    refine ⟨rfl, by simp, fun e he => ?_⟩
    injection he with h2
    subst h2
    have hx := manifestContent_error heq
    subst hx
    simp
  case _ old heq =>
    split_ifs at h with hif
    · cases h
      refine ⟨rfl, fun a ha => ?_, by simp⟩
      obtain ⟨d, hd, hdm⟩ := manifestContent_ok heq
      exact ⟨d, hd, by rw [hdm]; exact hif⟩
    · split at h
      case _ st2x ex heq2 =>
        cases h
        obtain ⟨hS, hN, hE⟩ := transactM_backup_state hb heq2
        exact ⟨hS, by simp, fun e he => by injection he with h2; subst h2; exact hE _ rfl⟩
      case _ st2x sp heq2 =>
        obtain ⟨hS, hN, hE⟩ := transactM_backup_state hb heq2
        exact absurd rfl (hN sp)

/-- With the backup sentinel present, `update` leaves the state unchanged,
never succeeds, and surfaces no commit-stage error other than
`PriorTransaction`. -/
theorem update_backup_state {ext : Ext} {flox : Flox} {st st2 : EnvState}
    {inputs : List String} {r : Except CoreEnvironmentError UpdateResult}
    {b : Dir} (hb : st.backup = some b)
    (h : update ext flox st inputs = (st2, r)) :
    st2 = st ∧ (∀ a, r ≠ .ok a) ∧
      (∀ e, r = .error e → e ≠ .BackupTransaction ∧ e ≠ .Move ∧
        e ≠ .RemoveBackup ∧ e ≠ .AbortTransaction) := by
  unfold update at h
  split at h
  · cases h
    exact ⟨rfl, by simp, fun e he => by injection he with h2; subst h2; simp⟩
  · split at h
    case _ st2x ex heq2 =>
      cases h
      obtain ⟨hS, hN, hE⟩ := transactL_backup_state hb heq2
      exact ⟨hS, by simp, fun e he => by injection he with h2; subst h2; exact hE _ rfl⟩
    case _ st2x sp heq2 =>
      obtain ⟨hS, hN, hE⟩ := transactL_backup_state hb heq2
      exact absurd rfl (hN sp)

/-- With the backup sentinel present, `upgradeFinish` leaves the state
unchanged, never succeeds, and surfaces no commit-stage error other than
`PriorTransaction`. -/
theorem upgradeFinish_backup_state {ext : Ext} {flox : Flox} {st st2 : EnvState}
    {lf : LockedManifest} {ups : List String}
    {r : Except CoreEnvironmentError UpgradeResult}
    {b : Dir} (hb : st.backup = some b)
    (h : upgradeFinish ext flox st lf ups = (st2, r)) :
    st2 = st ∧ (∀ a, r ≠ .ok a) ∧
      (∀ e, r = .error e → e ≠ .BackupTransaction ∧ e ≠ .Move ∧
        e ≠ .RemoveBackup ∧ e ≠ .AbortTransaction) := by
  unfold upgradeFinish at h
  split at h
  case _ st2x ex heq2 =>
    cases h
    obtain ⟨hS, hN, hE⟩ := transactL_backup_state hb heq2
    exact ⟨hS, by simp, fun e he => by injection he with h2; subst h2; exact hE _ rfl⟩
  case _ st2x sp heq2 =>
    obtain ⟨hS, hN, hE⟩ := transactL_backup_state hb heq2
    exact absurd rfl (hN sp)

/-- With the backup sentinel present, `upgrade` leaves the state unchanged,
never succeeds, and surfaces no commit-stage error other than
`PriorTransaction`. -/
theorem upgrade_backup_state {ext : Ext} {flox : Flox} {st st2 : EnvState}
    {keys : List String} {r : Except CoreEnvironmentError UpgradeResult}
    {b : Dir} (hb : st.backup = some b)
    (h : upgrade ext flox st keys = (st2, r)) :
    st2 = st ∧ (∀ a, r ≠ .ok a) ∧
      (∀ e, r = .error e → e ≠ .BackupTransaction ∧ e ≠ .Move ∧
        e ≠ .RemoveBackup ∧ e ≠ .AbortTransaction) := by
  unfold upgrade at h
  split at h
  · cases h
    exact ⟨rfl, by simp, fun e he => by injection he with h2; subst h2; simp⟩
  · split at h
    · cases h
      exact ⟨rfl, by simp, fun e he => by injection he with h2; subst h2; simp⟩
    · split at h
      case _ ex heq2 =>
        cases h
        refine ⟨rfl, by simp, fun e he => ?_⟩
        injection he with h2
        subst h2
        rcases upgradeWithPkgdb_error heq2 with hx | hx <;> (subst hx; simp)
      case _ => exact upgradeFinish_backup_state hb h
    · split at h
      · cases h
        exact ⟨rfl, by simp, fun e he => by injection he with h2; subst h2; simp⟩
      · split at h
        case _ ex heq2 =>
          cases h
          refine ⟨rfl, by simp, fun e he => ?_⟩
          injection he with h2
          subst h2
          have hx := upgradeWithCatalogClient_error heq2
          subst hx
          simp
        case _ => exact upgradeFinish_backup_state hb h

/-! ## Claim C1 -/

/-- C1 (amended): every mutating operation (install, uninstall, edit, update,
upgrade) that returns an error leaves the content of `env_dir` (and the
backup slot) bit-identical to its pre-operation state — failures in sandbox
creation, copy to the sandbox, manifest or lockfile write, resolution, build,
the sentinel check, the backup rename, and a copy-in failure whose restore
succeeds all roll back — except for the `RemoveBackup` and `AbortTransaction`
errors (raised after or during the swap itself) and, for `edit`, the
`DeserializeManifest` error (which can be raised while classifying the result
after a successful commit). -/
theorem failed_mutations_preserve_env_dir
    (op : MutOp) (ext : Ext) (flox : Flox) (st st2 : EnvState)
    (e : CoreEnvironmentError)
    (h : runMut op ext flox st = (st2, some e))
    (h1 : e ≠ .RemoveBackup) (h2 : e ≠ .AbortTransaction)
    (h3 : ∀ s, op = .edit s → e ≠ .DeserializeManifest) :
    st2 = st := by
  cases op with
  | install pkgs =>
    simp only [runMut] at h
    obtain ⟨hA, hB⟩ := Prod.mk.injEq .. |>.mp h
    rcases hP : install ext flox st pkgs with ⟨stx, rx⟩
    rw [hP] at hA hB
    have hR := errOf_eq_some hB
    subst hR hA
    exact install_error_state hP h1 h2
  | uninstall ids =>
    simp only [runMut] at h
    obtain ⟨hA, hB⟩ := Prod.mk.injEq .. |>.mp h
    rcases hP : uninstall ext flox st ids with ⟨stx, rx⟩
    rw [hP] at hA hB
    have hR := errOf_eq_some hB
    subst hR hA
    exact uninstall_error_state hP h1 h2
  | edit contents =>
    simp only [runMut] at h
    obtain ⟨hA, hB⟩ := Prod.mk.injEq .. |>.mp h
    rcases hP : edit ext flox st contents with ⟨stx, rx⟩
    rw [hP] at hA hB
    have hR := errOf_eq_some hB
    subst hR hA
    exact edit_error_state hP h1 h2 (h3 contents rfl)
  | update inputs =>
    simp only [runMut] at h
    obtain ⟨hA, hB⟩ := Prod.mk.injEq .. |>.mp h
    rcases hP : update ext flox st inputs with ⟨stx, rx⟩
    rw [hP] at hA hB
    have hR := errOf_eq_some hB
    subst hR hA
    exact update_error_state hP h1 h2
  | upgrade keys =>
    simp only [runMut] at h
    obtain ⟨hA, hB⟩ := Prod.mk.injEq .. |>.mp h
    rcases hP : upgrade ext flox st keys with ⟨stx, rx⟩
    rw [hP] at hA hB
    have hR := errOf_eq_some hB
    subst hR hA
    exact upgrade_error_state hP h1 h2

/-! ## Claim C2 -/

/-- C2 (amended): when the backup sentinel `env_dir.tmp` exists at the start
of a mutating operation, the operation leaves `env_dir` and the sentinel
untouched and never commits: it returns an error unless it takes a
no-change fast path (an `edit` with identical text or an `install` that adds
nothing), and the error is never a commit-stage error other than
`PriorTransaction` (`BackupTransaction`, `Move`, `RemoveBackup` and
`AbortTransaction` cannot occur); an operation that fails before the commit
step surfaces its own earlier error instead of `PriorTransaction`. -/
theorem sentinel_blocks_mutations
    (op : MutOp) (ext : Ext) (flox : Flox) (st st2 : EnvState)
    (r : Option CoreEnvironmentError) (b : Dir)
    (hb : st.backup = some b)
    (h : runMut op ext flox st = (st2, r)) :
    st2 = st ∧
      (r = none → skipsTransaction op ext st) ∧
      (∀ e, r = some e → e ≠ .BackupTransaction ∧ e ≠ .Move ∧
        e ≠ .RemoveBackup ∧ e ≠ .AbortTransaction) := by
  cases op with
  | install pkgs =>
    simp only [runMut] at h
    obtain ⟨hA, hB⟩ := Prod.mk.injEq .. |>.mp h
    rcases hP : install ext flox st pkgs with ⟨stx, rx⟩
    rw [hP] at hA hB
    obtain ⟨hS, hOk, hE⟩ := install_backup_state hb hP
    subst hA
    refine ⟨hS, fun hr => ?_, fun e he => ?_⟩
    · obtain ⟨a, ha⟩ := errOf_eq_none (hB.trans hr)
      exact hOk a ha
    · exact hE e (errOf_eq_some (hB.trans he))
  | uninstall ids =>
    simp only [runMut] at h
    obtain ⟨hA, hB⟩ := Prod.mk.injEq .. |>.mp h
    rcases hP : uninstall ext flox st ids with ⟨stx, rx⟩
    rw [hP] at hA hB
    obtain ⟨hS, hOk, hE⟩ := uninstall_backup_state hb hP
    subst hA
    refine ⟨hS, fun hr => ?_, fun e he => ?_⟩
    · obtain ⟨a, ha⟩ := errOf_eq_none (hB.trans hr)
      exact absurd ha (hOk a)
    · exact hE e (errOf_eq_some (hB.trans he))
  | edit contents =>
    simp only [runMut] at h
    obtain ⟨hA, hB⟩ := Prod.mk.injEq .. |>.mp h
    rcases hP : edit ext flox st contents with ⟨stx, rx⟩
    rw [hP] at hA hB
    obtain ⟨hS, hOk, hE⟩ := edit_backup_state hb hP
    subst hA
    refine ⟨hS, fun hr => ?_, fun e he => ?_⟩
    · obtain ⟨a, ha⟩ := errOf_eq_none (hB.trans hr)
      exact hOk a ha
    · exact hE e (errOf_eq_some (hB.trans he))
  | update inputs =>
    simp only [runMut] at h
    obtain ⟨hA, hB⟩ := Prod.mk.injEq .. |>.mp h
    rcases hP : update ext flox st inputs with ⟨stx, rx⟩
    rw [hP] at hA hB
    obtain ⟨hS, hOk, hE⟩ := update_backup_state hb hP
    subst hA
    refine ⟨hS, fun hr => ?_, fun e he => ?_⟩
    · obtain ⟨a, ha⟩ := errOf_eq_none (hB.trans hr)
      exact absurd ha (hOk a)
    · exact hE e (errOf_eq_some (hB.trans he))
  | upgrade keys =>
    simp only [runMut] at h
    obtain ⟨hA, hB⟩ := Prod.mk.injEq .. |>.mp h
    rcases hP : upgrade ext flox st keys with ⟨stx, rx⟩
    rw [hP] at hA hB
    obtain ⟨hS, hOk, hE⟩ := upgrade_backup_state hb hP
    subst hA
    refine ⟨hS, fun hr => ?_, fun e he => ?_⟩
    · obtain ⟨a, ha⟩ := errOf_eq_none (hB.trans hr)
      exact absurd ha (hOk a)
    · exact hE e (errOf_eq_some (hB.trans he))

/-! ## Concrete instances used by counterexamples and witnesses -/

/-- A `Flox` without a catalog client. -/
def floxNone : Flox := { catalog_client := none }

/-- A fully succeeding external world in which every manifest deserializes as
a legacy manifest, but only the text `"new"` parses as an (untyped)
`Manifest`. -/
def extC9 : Ext where
  parseTyped := fun _ => some .pkgdb
  parseFlat := fun s => if s = "new" then some { hook := none, vars := [] } else none
  insertPkgs := fun s _ => some { newToml := some (s ++ "+"), alreadyInstalled := [] }
  removePkgs := fun s _ => some s
  pkgdbLock := fun _ _ => some "pkgdb-lock"
  globalLockfile := some "glock"
  pkgdbUpdate := fun _ _ _ => some ("updated-lock", none)
  pkgdbUpgrade := fun _ _ _ => .ok ("upgraded-lock", [])
  parseLock := fun s => some (.pkgdb s)
  buildLock := fun _ => some "/store/p"
  containerize := fun _ => some "builder"
  serializePretty := fun _ => "LP"
  serializeCompact := fun _ => "LC"
  os := "linux"
  ioMkSandbox := true
  ioCopyToSandbox := true
  ioOpenTempManifest := true
  ioWriteTempManifest := true
  ioWriteLockfile := true
  ioRenameBackup := true
  ioCopyIn := true
  ioRemoveEnvOnAbort := true
  ioRestoreBackup := true
  ioRemoveBackup := true
  partialCopy := none

/-- The same world but with a failing builder. -/
def extBuildFail : Ext := { extC9 with buildLock := fun _ => none }

/-- An environment whose on-disk manifest text `"bad"` does not parse as an
untyped `Manifest`. -/
def stC9 : EnvState :=
  { envPath := "/env", env := some { manifest := "bad", lock := none }, backup := none }

/-- An environment with the backup sentinel present. -/
def stBak : EnvState :=
  { envPath := "/env", env := some { manifest := "m", lock := none },
    backup := some { manifest := "m", lock := none } }

/-- Witness for C1 (amended): a concrete uninstall whose build fails rolls
back to the original state. -/
theorem failed_mutations_preserve_env_dir_witness :
    runMut (.uninstall ["x"]) extBuildFail floxNone stC9 =
      ((runMut (.uninstall ["x"]) extBuildFail floxNone stC9).1,
        some .LockedManifest) ∧
    (runMut (.uninstall ["x"]) extBuildFail floxNone stC9).1 = stC9 :=
  ⟨by decide,
   failed_mutations_preserve_env_dir (.uninstall ["x"]) extBuildFail floxNone stC9
     (runMut (.uninstall ["x"]) extBuildFail floxNone stC9).1 .LockedManifest
     (by decide) (by decide) (by decide) (fun s hs => nomatch hs)⟩

/-- Counterexample to C1 as stated: on an environment whose manifest does not
parse, an `edit` whose transaction succeeds still returns an error
(`DeserializeManifest`, raised while classifying the result), yet `env_dir`
has been replaced — so a failing mutating operation does not always leave
`env_dir` bit-identical. -/
theorem failed_edit_can_change_env_dir_cex :
    (runMut (.edit "new") extC9 floxNone stC9).2 = some .DeserializeManifest ∧
    (runMut (.edit "new") extC9 floxNone stC9).1 ≠ stC9 := by
  decide

/-- C9: there is a reachable input on which `edit` both modifies `env_dir`
and returns an error: with a pre-edit manifest that does not parse and new
contents that parse, lock and build, the transaction replaces `env_dir` with
the new environment and `edit` afterwards returns `DeserializeManifest` while
classifying the result. -/
theorem edit_error_after_commit :
    (edit extC9 floxNone stC9 "new").2 = .error .DeserializeManifest ∧
    (edit extC9 floxNone stC9 "new").1.env =
      some { manifest := "new", lock := some "LP" } ∧
    (edit extC9 floxNone stC9 "new").1.env ≠ stC9.env :=
  ⟨rfl, rfl, by decide⟩

/-- Counterexample to C2 as stated: with the backup sentinel present, an
`edit` whose text equals the current manifest succeeds (returns no error at
all) instead of failing with `PriorTransaction`. -/
theorem sentinel_edit_noop_succeeds_cex :
    stBak.backup.isSome = true ∧
    runMut (.edit "m") extC9 floxNone stBak = (stBak, none) := by
  decide

/-- Witness for C2 (amended): a concrete uninstall against a sentinel-blocked
environment fails with `PriorTransaction` on the sentinel path and changes
nothing. -/
theorem sentinel_blocks_mutations_witness :
    runMut (.uninstall ["x"]) extC9 floxNone stBak =
      (stBak, some (.PriorTransaction ("/env" ++ ".tmp"))) ∧
    (stBak = stBak ∧
      (some (CoreEnvironmentError.PriorTransaction ("/env" ++ ".tmp")) = none →
        skipsTransaction (.uninstall ["x"]) extC9 stBak) ∧
      (∀ e, some (CoreEnvironmentError.PriorTransaction ("/env" ++ ".tmp")) = some e →
        e ≠ .BackupTransaction ∧ e ≠ .Move ∧ e ≠ .RemoveBackup ∧
          e ≠ .AbortTransaction)) :=
  ⟨by decide,
   sentinel_blocks_mutations (.uninstall ["x"]) extC9 floxNone stBak stBak
     (some (.PriorTransaction ("/env" ++ ".tmp"))) { manifest := "m", lock := none }
     rfl (by decide)⟩

/-! ## Claims C4, C5, C6, C7, C8, C10 -/

/-- Rebuilding an `EnvState` with its own environment contents is the
identity. -/
theorem envState_set_env_self {st : EnvState} {d : Dir} (h : st.env = some d) :
    ({ st with env := some d } : EnvState) = st := by
  cases st with
  | mk p env bak =>
    cases h
    rfl

/-- `upgradeFinish` never fails with `CatalogClientMissing`. -/
theorem upgradeFinish_no_ccm {ext : Ext} {flox : Flox} {st st2 : EnvState}
    {lf : LockedManifest} {ups : List String} {e : CoreEnvironmentError}
    (h : upgradeFinish ext flox st lf ups = (st2, .error e)) :
    e ≠ .CatalogClientMissing := by
  unfold upgradeFinish at h
  split at h
  case _ st2x ex heq =>
    obtain ⟨-, hE⟩ := Prod.mk.injEq .. |>.mp h
    injection hE with hE2
    subst hE2
    rcases transactL_error_enum heq with
      hx | hx | hx | hx | hx | ⟨p, hx⟩ | hx | hx | hx | hx <;> (subst hx; simp)
  case _ => exact absurd h (by simp)

/-- C4: for an environment whose manifest is the Catalog variant, `lock` and
`upgrade` (with any key list) fail with `CatalogClientMissing` — touching
nothing — when no catalog client is configured, and never fail with that
error when a client is configured. -/
theorem catalog_requires_client
    (ext : Ext) (flox : Flox) (st : EnvState) (d : Dir) (m : TypedManifestCatalog)
    (keys : List String)
    (h1 : st.env = some d)
    (h2 : ext.parseTyped d.manifest = some (.catalog m)) :
    (flox.catalog_client = none →
      lock ext flox st = (st, .error .CatalogClientMissing) ∧
      upgrade ext flox st keys = (st, .error .CatalogClientMissing)) ∧
    (∀ client, flox.catalog_client = some client →
      (∀ st2 e, lock ext flox st = (st2, .error e) → e ≠ .CatalogClientMissing) ∧
      (∀ st2 e, upgrade ext flox st keys = (st2, .error e) →
        e ≠ .CatalogClientMissing)) := by
  constructor
  · intro hc
    constructor
    · simp only [lock, h1, lockOnDir_ccm h2 hc, envState_set_env_self h1]
    · simp only [upgrade, h1, h2, hc]
  · intro client hc
    constructor
    · intro st2 e hL
      simp only [lock, h1] at hL
      rcases hD : lockOnDir ext flox d with ⟨d2, rd⟩
      simp only [hD] at hL
      obtain ⟨-, hE⟩ := Prod.mk.injEq .. |>.mp hL
      subst hE
      exact lockOnDir_no_ccm hc hD
    · intro st2 e hU
      simp only [upgrade, h1, h2, hc] at hU
      split at hU
      case _ ex heq =>
        obtain ⟨-, hE⟩ := Prod.mk.injEq .. |>.mp hU
        injection hE with hE2
        subst hE2
        have hx := upgradeWithCatalogClient_error heq
        subst hx
        simp
      case _ => exact upgradeFinish_no_ccm hU

/-- C5: `edit` returns `Unchanged` exactly when the new text equals the
current manifest text, and in that case the transaction is skipped and the
filesystem state (in particular the absence of a lockfile) is untouched. -/
theorem edit_unchanged_iff_same_text
    (ext : Ext) (flox : Flox) (st : EnvState) (d : Dir) (c : String)
    (h1 : st.env = some d) :
    ((edit ext flox st c).2 = .ok .Unchanged ↔ c = d.manifest) ∧
    (c = d.manifest → edit ext flox st c = (st, .ok .Unchanged)) := by
  have hm : manifestContent st = .ok d.manifest := by
    simp [manifestContent, h1]
  have hfast : c = d.manifest → edit ext flox st c = (st, .ok .Unchanged) := by
    intro hc
    simp only [edit, hm]
    rw [if_pos hc]
  refine ⟨⟨?_, fun hc => by rw [hfast hc]⟩, hfast⟩
  intro hE
  by_contra hc
  have hedit : edit ext flox st c =
      (match transactWithManifestContents ext flox st c with
       | (st2, .error e) => (st2, .error e)
       | (st2, .ok sp) => (st2, EditResult.new ext d.manifest c (some sp))) := by
    simp only [edit, hm]
    rw [if_neg hc]
  rcases hT : transactWithManifestContents ext flox st c with ⟨stx, rx⟩
  rw [hT] at hedit
  cases rx with
  | error ex =>
    rw [hedit] at hE
    exact absurd hE (by simp)
  | ok sp =>
    rw [hedit] at hE
    obtain ⟨hNe, -⟩ :=
      editResultNew_ok_shape (fun hh => hc hh.symm) (r := .Unchanged) hE
    exact hNe rfl

/-- C6: a successful `edit` whose texts differ and both parse returns
`ReActivateRequired` exactly when the parsed manifests' `hook` or `vars`
sections differ, and `Success` otherwise (each carrying the store path). -/
theorem edit_reactivate_iff_hook_or_vars_changed
    (ext : Ext) (flox : Flox) (st st2 : EnvState) (d : Dir) (c : String)
    (mo mn : Manifest) (r : EditResult)
    (h1 : st.env = some d) (h2 : c ≠ d.manifest)
    (h3 : ext.parseFlat d.manifest = some mo) (h4 : ext.parseFlat c = some mn)
    (h5 : edit ext flox st c = (st2, .ok r)) :
    ∃ sp, r = if mo.hook ≠ mn.hook ∨ mo.vars ≠ mn.vars
      then .ReActivateRequired (some sp) else .Success (some sp) := by
  have hm : manifestContent st = .ok d.manifest := by
    simp [manifestContent, h1]
  rw [show edit ext flox st c =
      (match transactWithManifestContents ext flox st c with
       | (stx, .error e) => (stx, .error e)
       | (stx, .ok sp) => (stx, EditResult.new ext d.manifest c (some sp)))
      from by simp only [edit, hm]; rw [if_neg h2]] at h5
  rcases hT : transactWithManifestContents ext flox st c with ⟨stx, rx⟩
  rw [hT] at h5
  cases rx with
  | error ex => exact absurd h5 (by simp)
  | ok sp =>
    obtain ⟨-, hB⟩ := Prod.mk.injEq .. |>.mp h5
    rw [editResultNew_ok (fun hh => h2 hh.symm) h3 h4] at hB
    injection hB with hB2
    exact ⟨sp, hB2.symm⟩

/-- C7: when the editor's insertion on the current manifest yields new text
`t` (necessarily different from the old text, since a package was added),
`install` and `edit t` run the same manifest-path transaction: they leave the
filesystem in the same state, and on common success report the same store
path (and `install` reports `t` as the new manifest). -/
theorem install_equiv_edit
    (ext : Ext) (flox : Flox) (st : EnvState) (d : Dir) (pkgs : List String)
    (t : String) (already : List (String × String))
    (h1 : st.env = some d)
    (h2 : ext.insertPkgs d.manifest pkgs =
      some { newToml := some t, alreadyInstalled := already })
    (h3 : t ≠ d.manifest) :
    (install ext flox st pkgs).1 = (edit ext flox st t).1 ∧
    (∀ a r, (install ext flox st pkgs).2 = .ok a → (edit ext flox st t).2 = .ok r →
      r.store_path = a.storePath ∧ a.newManifest = some t) := by
  have hm : manifestContent st = .ok d.manifest := by
    simp [manifestContent, h1]
  have hI : install ext flox st pkgs =
      (match transactWithManifestContents ext flox st t with
       | (stx, .error e) => (stx, .error e)
       | (stx, .ok sp) =>
           (stx, .ok (⟨some t, already, some sp⟩ : InstallationAttempt))) := by
    simp only [install, hm, h2]
  have hE : edit ext flox st t =
      (match transactWithManifestContents ext flox st t with
       | (stx, .error e) => (stx, .error e)
       | (stx, .ok sp) => (stx, EditResult.new ext d.manifest t (some sp))) := by
    simp only [edit, hm]
    rw [if_neg h3]
  rcases hT : transactWithManifestContents ext flox st t with ⟨stx, rx⟩
  rw [hT] at hI hE
  cases rx with
  | error ex =>
    rw [hI, hE]
    exact ⟨rfl, fun a r ha hr => absurd ha (by simp)⟩
  | ok sp =>
    rw [hI, hE]
    refine ⟨rfl, fun a r ha hr => ?_⟩
    injection ha with ha2
    subst ha2
    obtain ⟨-, hSp⟩ := editResultNew_ok_shape (fun hh => h3 hh.symm) hr
    exact ⟨by rw [hSp], rfl⟩

/-- C8: `build_container` fails with `ContainerizeUnsupportedSystem`
(carrying the host OS name) on every non-Linux host without touching the
environment; on a Linux host it re-locks the environment (writing the
lockfile) and returns the container builder produced from the lock. -/
theorem build_container_requires_linux
    (ext : Ext) (flox : Flox) (st : EnvState) :
    (ext.os ≠ "linux" →
      buildContainer ext flox st =
        (st, .error (.ContainerizeUnsupportedSystem ext.os))) ∧
    (ext.os = "linux" → ∀ st2 lf, lock ext flox st = (st2, .ok lf) →
      ∀ bld, ext.containerize lf = some bld →
        buildContainer ext flox st = (st2, .ok bld)) := by
  constructor
  · intro h
    unfold buildContainer
    rw [if_pos h]
  · intro h st2 lf hL bld hB
    unfold buildContainer
    rw [if_neg (fun hh => hh h), hL]
    simp only [hB]

/-- C10: `uninstall` always runs the full manifest-path transaction on the
editor's output — even when the text is unchanged because no listed
install-id was present — and on success reports both the new manifest and the
store path; `install`, in contrast, skips the transaction entirely when the
insertion adds nothing. -/
theorem uninstall_always_transacts
    (ext : Ext) (flox : Flox) (st : EnvState) (d : Dir) (ids : List String)
    (t : String)
    (h1 : st.env = some d)
    (h2 : ext.removePkgs d.manifest ids = some t) :
    ((uninstall ext flox st ids).1 =
      (transactWithManifestContents ext flox st t).1) ∧
    (∀ sp, (transactWithManifestContents ext flox st t).2 = .ok sp →
      (uninstall ext flox st ids).2 =
        .ok (⟨some t, some sp⟩ : UninstallationAttempt)) ∧
    (∀ a, (uninstall ext flox st ids).2 = .ok a →
      a.newManifest = some t ∧ ∃ sp, a.storePath = some sp) ∧
    (∀ pkgs ins, ext.insertPkgs d.manifest pkgs = some ins → ins.newToml = none →
      install ext flox st pkgs =
        (st, .ok (⟨none, ins.alreadyInstalled, none⟩ : InstallationAttempt))) := by
  have hm : manifestContent st = .ok d.manifest := by
    simp [manifestContent, h1]
  have hNoOp : ∀ pkgs ins, ext.insertPkgs d.manifest pkgs = some ins →
      ins.newToml = none →
      install ext flox st pkgs =
        (st, .ok (⟨none, ins.alreadyInstalled, none⟩ : InstallationAttempt)) := by
    intro pkgs ins hi hn
    simp only [install, hm, hi, hn]
  have hU : uninstall ext flox st ids =
      (match transactWithManifestContents ext flox st t with
       | (stx, .error e) => (stx, .error e)
       | (stx, .ok sp) =>
           (stx, .ok (⟨some t, some sp⟩ : UninstallationAttempt))) := by
    simp only [uninstall, hm, h2]
  rcases hT : transactWithManifestContents ext flox st t with ⟨stx, rx⟩
  rw [hT] at hU
  cases rx with
  | error ex =>
    refine ⟨by simp only [hU], fun sp hsp => ?_, fun a ha => ?_, hNoOp⟩
    · exact absurd hsp (by simp)
    · rw [hU] at ha
      exact absurd ha (by simp)
  | ok sp0 =>
    refine ⟨by simp only [hU], fun sp hsp => ?_, fun a ha => ?_, hNoOp⟩
    · injection hsp with hsp2
      subst hsp2
      simp only [hU]
    · rw [hU] at ha
      injection ha with ha2
      subst ha2
      exact ⟨rfl, sp0, rfl⟩

/-! ## Claim C3 -/

/-- Resolving against a seed lock whose pins have all been stripped is the
same as resolving with no seed at all: with no pins to re-use, every
descriptor goes to the catalog client. -/
theorem lockManifestCatalog_empty_seed (client : CatalogClient)
    (m : TypedManifestCatalog) (lf : LockedManifestCatalog) :
    lockManifestCatalog client m (some { lf with packages := [] }) =
      lockManifestCatalog client m none := rfl

/-- An install-id is contained in the projection of its own package list. -/
theorem contains_map_install_id (ps : List LockedPackageCatalog)
    (p : LockedPackageCatalog) (hp : p ∈ ps) :
    (ps.map (fun q => q.install_id)).contains p.install_id = true := by
  induction ps with
  | nil => cases hp
  | cons a as ih =>
    cases hp with
    | head =>
      simp only [List.map_cons, List.contains_cons, beq_self_eq_true, Bool.true_or]
    | tail _ hmem =>
      have hx := ih hmem
      simp only [List.map_cons, List.contains_cons, hx, Bool.or_true]

/-- Unlocking every install-id of a lock strips all of its pins. -/
theorem unlock_all_strips_all (lf : LockedManifestCatalog) :
    unlockPackagesByGroupOrIid lf (lf.packages.map (fun p => p.install_id)) =
      { lf with packages := [] } := by
  unfold unlockPackagesByGroupOrIid
  congr 1
  rw [List.filter_eq_nil_iff]
  intro p hp
  rw [contains_map_install_id lf.packages p hp]
  simp

/-- C3: a Catalog-manifest `upgrade` with a configured client re-resolves
with the existing lock as a seed from which the pins matching
`groups_or_iids` are stripped (an empty list drops the seed entirely, which
coincides with stripping every pin and forces full re-resolution), commits
the re-resolved lock through a lockfile-path transaction, and reports
exactly the install-ids of new-lock entries whose derivation differs from an
entry of the same install-id in the pre-upgrade lock. -/
theorem upgrade_catalog_reports_changed_derivations
    (ext : Ext) (flox : Flox) (st st2 : EnvState) (d : Dir)
    (m : TypedManifestCatalog) (client : CatalogClient) (keys : List String)
    (r : UpgradeResult)
    (h1 : st.env = some d)
    (h2 : ext.parseTyped d.manifest = some (.catalog m))
    (h3 : flox.catalog_client = some client)
    (h4 : upgrade ext flox st keys = (st2, .ok r)) :
    (∀ lf : LockedManifestCatalog,
      lockManifestCatalog client m (some { lf with packages := [] }) =
        lockManifestCatalog client m none) ∧
    (∀ lf : LockedManifestCatalog,
      unlockPackagesByGroupOrIid lf (lf.packages.map (fun p => p.install_id)) =
        { lf with packages := [] }) ∧
    ∃ existing upgraded diff,
      readCatalogSeed ext d = .ok existing ∧
      lockManifestCatalog client m
        (if keys.isEmpty then none
         else existing.map (fun lf => unlockPackagesByGroupOrIid lf keys)) =
        some upgraded ∧
      upgradeWithCatalogClient ext client keys m d = .ok (upgraded, diff) ∧
      r.packages = upgraded.packages.filterMap (fun pkg =>
        (((existing.map (fun lf => lf.packages)).getD []).find? (fun prev =>
          prev.install_id == pkg.install_id &&
            prev.derivation != pkg.derivation)).map
          (fun _ => pkg.install_id)) ∧
      (∃ sp, r.storePath = some sp ∧
        transactWithLockfileContents ext flox st
          (ext.serializeCompact (.catalog upgraded)) = (st2, .ok sp)) := by
  refine ⟨fun lf => lockManifestCatalog_empty_seed client m lf,
    fun lf => unlock_all_strips_all lf, ?_⟩
  simp only [upgrade, h1, h2, h3] at h4
  split at h4
  case _ ex heqU => exact absurd h4 (by simp)
  case _ lc diff heqU =>
    have heqUorig := heqU
    unfold upgradeFinish at h4
    split at h4
    case _ st2x ex heqT => exact absurd h4 (by simp)
    case _ st2x spx heqT =>
      obtain ⟨hA, hB⟩ := Prod.mk.injEq .. |>.mp h4
      injection hB with hB2
      subst hA hB2
      unfold upgradeWithCatalogClient at heqU
      split at heqU
      case _ ex heqS => exact absurd heqU (by simp)
      case _ existing heqS =>
        split at heqU
        case isTrue hkeys =>
          cases hL : lockManifestCatalog client m none with
          | none =>
            simp only [hL] at heqU
            exact absurd heqU (by simp)
          | some up =>
            simp only [hL] at heqU
            injection heqU with heqU2
            obtain ⟨hup, hdiff⟩ := Prod.mk.injEq .. |>.mp heqU2
            subst hup hdiff
            refine ⟨existing, up, _, heqS, ?_, heqUorig, ?_, spx, rfl, heqT⟩
            · rw [if_pos hkeys]
              exact hL
            · simp only [List.map_filterMap, Option.map_map]
              rfl
        case isFalse hkeys =>
          cases hL : lockManifestCatalog client m
              (existing.map (fun lf => unlockPackagesByGroupOrIid lf keys)) with
          | none =>
            simp only [hL] at heqU
            exact absurd heqU (by simp)
          | some up =>
            simp only [hL] at heqU
            injection heqU with heqU2
            obtain ⟨hup, hdiff⟩ := Prod.mk.injEq .. |>.mp heqU2
            subst hup hdiff
            refine ⟨existing, up, _, heqS, ?_, heqUorig, ?_, spx, rfl, heqT⟩
            · rw [if_neg hkeys]
              exact hL
            · simp only [List.map_filterMap, Option.map_map]
              rfl

/-! ## Witnesses for claims C3 to C8 and C10 -/

/-- A plain environment with manifest text `"m"` and no lockfile. -/
def stM : EnvState :=
  { envPath := "/env", env := some { manifest := "m", lock := none }, backup := none }

/-- The state after locking `stM` in place. -/
def stLocked : EnvState :=
  { envPath := "/env", env := some { manifest := "m", lock := some "LP" }, backup := none }

/-- A flat-manifest parse that gives the text `"hooked"` a hook. -/
def parseFlatHooked (s : String) : Option Manifest :=
  some ⟨if s = "hooked" then some "h" else none, []⟩

/-- A world whose flat-manifest parse gives the text `"hooked"` a hook. -/
def extFlat : Ext := { extC9 with parseFlat := parseFlatHooked }

/-- A world on a non-Linux host. -/
def extMac : Ext := { extC9 with os := "macos" }

/-- A catalog manifest requesting `foo`. -/
def manifestFoo : TypedManifestCatalog :=
  { install := [("foo", "foo-desc")], hook := none, vars := [] }

/-- `foo` pinned at derivation A. -/
def pkgA : LockedPackageCatalog :=
  { install_id := "foo", group := "toplevel", derivation := "deriv-A",
    descriptor := "foo-desc" }

/-- The pre-upgrade lock pinning `foo@deriv-A`. -/
def lockFoo : LockedManifestCatalog := { manifest := manifestFoo, packages := [pkgA] }

/-- A catalog client that resolves everything to derivation B. -/
def clientB : CatalogClient := fun iid desc =>
  some ⟨iid, "toplevel", "deriv-B", desc⟩

/-- The lockfile reader of the catalog scenario: `"LOCK0"` is the catalog
lock pinning `foo@deriv-A`; anything else reads as a legacy lock. -/
def parseLockCat (s : String) : Option LockedManifest :=
  if s = "LOCK0" then some (.catalog lockFoo) else some (.pkgdb s)

/-- A world with a catalog manifest and a readable catalog lockfile
`"LOCK0"`. -/
def extCat : Ext :=
  { extC9 with
    parseTyped := fun _ => some (.catalog manifestFoo),
    parseLock := parseLockCat,
    serializeCompact := fun _ => "LOCK1" }

/-- A `Flox` with the catalog client `clientB`. -/
def floxCat : Flox := { catalog_client := some clientB }

/-- The catalog environment directory. -/
def dCat : Dir := { manifest := "v1", lock := some "LOCK0" }

/-- The catalog environment state. -/
def stCat : EnvState := { envPath := "/env", env := some dCat, backup := none }

/-- The catalog environment after the upgrade commit. -/
def stCat2 : EnvState :=
  { envPath := "/env", env := some { manifest := "v1", lock := some "LOCK1" },
    backup := none }

/-- The upgrade result of the concrete scenario: `foo` upgraded. -/
def rCat : UpgradeResult := { packages := ["foo"], storePath := some "/store/p" }

/-- Witness for C3: with a lock pinning `foo@deriv-A` and a resolver
returning `deriv-B`, `upgrade []` re-resolves everything and reports
`[foo]`. -/
theorem upgrade_catalog_reports_changed_derivations_witness :
    (∀ lf : LockedManifestCatalog,
      lockManifestCatalog clientB manifestFoo (some { lf with packages := [] }) =
        lockManifestCatalog clientB manifestFoo none) ∧
    (∀ lf : LockedManifestCatalog,
      unlockPackagesByGroupOrIid lf (lf.packages.map (fun p => p.install_id)) =
        { lf with packages := [] }) ∧
    ∃ existing upgraded diff,
      readCatalogSeed extCat dCat = .ok existing ∧
      lockManifestCatalog clientB manifestFoo
        (if ([] : List String).isEmpty then none
         else existing.map (fun lf => unlockPackagesByGroupOrIid lf [])) =
        some upgraded ∧
      upgradeWithCatalogClient extCat clientB [] manifestFoo dCat =
        .ok (upgraded, diff) ∧
      rCat.packages = upgraded.packages.filterMap (fun pkg =>
        (((existing.map (fun lf => lf.packages)).getD []).find? (fun prev =>
          prev.install_id == pkg.install_id &&
            prev.derivation != pkg.derivation)).map
          (fun _ => pkg.install_id)) ∧
      (∃ sp, rCat.storePath = some sp ∧
        transactWithLockfileContents extCat floxCat stCat
          (extCat.serializeCompact (.catalog upgraded)) = (stCat2, .ok sp)) :=
  upgrade_catalog_reports_changed_derivations extCat floxCat stCat stCat2 dCat
    manifestFoo clientB [] rCat rfl rfl rfl rfl

/-- Witness for C4: with a catalog manifest, `lock` and `upgrade []` fail
with `CatalogClientMissing` without a client and never produce that error
with one. -/
theorem catalog_requires_client_witness :
    (lock extCat floxNone stCat = (stCat, .error .CatalogClientMissing) ∧
      upgrade extCat floxNone stCat [] = (stCat, .error .CatalogClientMissing)) ∧
    (∀ st2 e, lock extCat floxCat stCat = (st2, .error e) →
      e ≠ .CatalogClientMissing) ∧
    (∀ st2 e, upgrade extCat floxCat stCat [] = (st2, .error e) →
      e ≠ .CatalogClientMissing) :=
  ⟨(catalog_requires_client extCat floxNone stCat dCat manifestFoo [] rfl rfl).1 rfl,
   ((catalog_requires_client extCat floxCat stCat dCat manifestFoo [] rfl rfl).2
     clientB rfl).1,
   ((catalog_requires_client extCat floxCat stCat dCat manifestFoo [] rfl rfl).2
     clientB rfl).2⟩

/-- Witness for C5: on manifest text `"m"`, `edit "m"` is `Unchanged` and
leaves the state untouched. -/
theorem edit_unchanged_iff_same_text_witness :
    (((edit extC9 floxNone stM "m").2 = .ok .Unchanged) ↔
      "m" = ({ manifest := "m", lock := none } : Dir).manifest) ∧
    ("m" = ({ manifest := "m", lock := none } : Dir).manifest →
      edit extC9 floxNone stM "m" = (stM, .ok .Unchanged)) :=
  edit_unchanged_iff_same_text extC9 floxNone stM
    { manifest := "m", lock := none } "m" rfl

/-- Witness for C6: adding a hook makes a successful edit return
`ReActivateRequired`. -/
theorem edit_reactivate_iff_hook_or_vars_changed_witness :
    ∃ sp, EditResult.ReActivateRequired (some "/store/p") =
      if ({ hook := none, vars := [] } : Manifest).hook ≠
          ({ hook := some "h", vars := [] } : Manifest).hook ∨
        ({ hook := none, vars := [] } : Manifest).vars ≠
          ({ hook := some "h", vars := [] } : Manifest).vars
      then .ReActivateRequired (some sp) else .Success (some sp) :=
  edit_reactivate_iff_hook_or_vars_changed extFlat floxNone stM
    { envPath := "/env", env := some { manifest := "hooked", lock := some "LP" },
      backup := none }
    { manifest := "m", lock := none } "hooked"
    { hook := none, vars := [] } { hook := some "h", vars := [] }
    (.ReActivateRequired (some "/store/p")) rfl (by decide) (by decide) (by decide)
    (by decide)

/-- Witness for C7: a concrete `install` adding one package agrees with the
`edit` on the inserted text. -/
theorem install_equiv_edit_witness :
    ((install extC9 floxNone stM ["p"]).1 = (edit extC9 floxNone stM "m+").1) ∧
    (∀ a r, (install extC9 floxNone stM ["p"]).2 = .ok a →
      (edit extC9 floxNone stM "m+").2 = .ok r →
      r.store_path = a.storePath ∧ a.newManifest = some "m+") :=
  install_equiv_edit extC9 floxNone stM { manifest := "m", lock := none }
    ["p"] "m+" [] rfl (by decide) (by decide)

/-- Witness for C8: containerization fails on macOS with the OS name and, on
Linux, locks and returns the builder. -/
theorem build_container_requires_linux_witness :
    buildContainer extMac floxNone stM =
      (stM, .error (.ContainerizeUnsupportedSystem "macos")) ∧
    buildContainer extC9 floxNone stM = (stLocked, .ok "builder") :=
  ⟨(build_container_requires_linux extMac floxNone stM).1 (by decide),
   (build_container_requires_linux extC9 floxNone stM).2 rfl stLocked
     (.pkgdb "pkgdb-lock") rfl "builder" rfl⟩

/-- Witness for C10: an `uninstall` of an absent install-id leaves the
manifest text unchanged yet still transacts, returning both the manifest and
a store path; an `install` that adds nothing skips the transaction. -/
theorem uninstall_always_transacts_witness :
    ((uninstall extC9 floxNone stM ["x"]).1 =
      (transactWithManifestContents extC9 floxNone stM "m").1) ∧
    (∀ sp, (transactWithManifestContents extC9 floxNone stM "m").2 = .ok sp →
      (uninstall extC9 floxNone stM ["x"]).2 =
        .ok (⟨some "m", some sp⟩ : UninstallationAttempt)) ∧
    (∀ a, (uninstall extC9 floxNone stM ["x"]).2 = .ok a →
      a.newManifest = some "m" ∧ ∃ sp, a.storePath = some sp) ∧
    (∀ pkgs ins, extC9.insertPkgs ({ manifest := "m", lock := none } : Dir).manifest
        pkgs = some ins → ins.newToml = none →
      install extC9 floxNone stM pkgs =
        (stM, .ok (⟨none, ins.alreadyInstalled, none⟩ : InstallationAttempt))) :=
  uninstall_always_transacts extC9 floxNone stM { manifest := "m", lock := none }
    ["x"] "m" rfl rfl

end FloxCore
